import Mathlib

/-!
# Verification of the purepure SCN codec

A shallow embedding of the algorithmic core of `purepure.go`: the segment
scanner (`splitFile`), the reassembler (`combineSegments`), the header and
offset-table patcher (`fixFileSizeHeader`), the strict-size substitution
policy, the visible-length measurement used by the word wrapper
(`lineLength`), the bubble-removal byte patcher (`removeBubbles`) and the
soft-failing text decoder (`parseJIS`).

Byte buffers are modelled as `List Nat` (each element a byte value);
machine `uint32` arithmetic is modelled with explicit `% 2^32`.
Recursive scans use an explicit fuel argument set to `length + 1`; every
scanning step consumes at least one byte, so that fuel is never exhausted
(`splitFileAux_fuel` below makes this precise for the segment scanner).
-/

/-- Segment kinds.  Go uses the string-typed `SegmentType` with `""`
denoting a structural (untyped) segment; we use a dedicated constructor. -/
inductive SegmentType where
  | structural
  | text
  | choice
  | filetag
deriving DecidableEq

/-- `ScnSegment` from the source: a portion of an SCN file. -/
structure ScnSegment where
  lineType : SegmentType
  lineIndex : Nat
  data : List Nat
deriving DecidableEq

/-- The four little-endian bytes of `n` (mod `2^32`);
`binary.LittleEndian.PutUint32`'s byte image. -/
def le4 (n : Nat) : List Nat :=
  [n % 256, n / 256 % 256, n / 65536 % 256, n / 16777216 % 256]

/-- `lineStart` from the source: `0xf3` followed by the 4-byte
little-endian index marks the start of the `i`th dialog line. -/
def lineStart (i : Nat) : List Nat := 0xf3 :: le4 i

/-- `choiceStart` from the source. -/
def choiceStart : List Nat := [0xf0, 0x1c, 0xf1]

/-- `fileTagStart` from the source. -/
def fileTagStart : List Nat := [0xf0, 0x1a, 0xf1]

/-- `bytes.Index`: index of the first occurrence of `pat` in `l`,
`none` when `pat` does not occur (Go returns `-1`). -/
def bytesIndex (pat : List Nat) : List Nat → Option Nat
  | [] => if pat.isPrefixOf ([] : List Nat) then some 0 else none
  | a :: t =>
    if pat.isPrefixOf (a :: t) then some 0
    else (bytesIndex pat t).map (· + 1)

/-- `bytes.IndexByte`: index of the first occurrence of byte `b` in `l`. -/
def indexByte : List Nat → Nat → Option Nat
  | [], _ => none
  | a :: t, b => if a = b then some 0 else (indexByte t b).map (· + 1)

/-- The marker bytes searched for a given segment kind (`ls` in the
source's scanner loop); the Text marker embeds the current Text counter. -/
def markerFor (ty : SegmentType) (ti : Nat) : List Nat :=
  match ty with
  | .text => lineStart ti
  | .choice => choiceStart
  | .filetag => fileTagStart
  | .structural => []

/-- One arm of the scanner's marker-selection chain
(`if candBegin != -1 && (begin == -1 || candBegin < begin)`): replace the
current pick by the candidate exactly when the candidate occurs and is
strictly earlier (or nothing has been picked yet). -/
def pickEarlier (curTy : SegmentType) (curB : Option Nat) (candTy : SegmentType)
    (cand : Option Nat) : SegmentType × Option Nat :=
  match cand, curB with
  | some cb, none => (candTy, some cb)
  | some cb, some b => if cb < b then (candTy, some cb) else (curTy, some b)
  | none, _ => (curTy, curB)

/-- The scanner's marker selection (lines 146-159 of `purepure.go`):
start with the Text marker for the current Text counter, then let the
Choice marker and then the FileTag marker displace the pick when strictly
earlier. -/
def chooseMarker (remaining : List Nat) (ti : Nat) : SegmentType × Option Nat :=
  let p1 := pickEarlier SegmentType.text (bytesIndex (lineStart ti) remaining)
    SegmentType.choice (bytesIndex choiceStart remaining)
  pickEarlier p1.1 p1.2 SegmentType.filetag (bytesIndex fileTagStart remaining)

/-- The counter (`indexMap[lineType]`) for a segment kind. -/
def idxOf (ty : SegmentType) (ti ci fi_ : Nat) : Nat :=
  match ty with
  | .text => ti
  | .choice => ci
  | .filetag => fi_
  | .structural => 0

/-- Everything one iteration of the scanner loop produces: the structural
bytes up to and including the marker (`pre`), the semantic segment's kind,
index and payload, the unscanned suffix (`rest`), and the three counters
after the continuation rule has been applied. -/
structure StepResult where
  pre : List Nat
  ty : SegmentType
  idx : Nat
  payload : List Nat
  rest : List Nat
  textIdx : Nat
  choiceIdx : Nat
  fileTagIdx : Nat
deriving DecidableEq

/-- Outcome of one scanner-loop iteration: `fatal` is the source's
`log.Fatal("did not find end to line")`, `finished` the no-marker exit. -/
inductive StepOut where
  | fatal
  | finished
  | step (r : StepResult)
deriving DecidableEq

/-- One iteration of the scanner loop of `splitFile` (lines 146-181): pick
the earliest marker, cut at the next zero byte, and apply the continuation
rule to the counters (`indexMap[lineType]++` unless the matched kind is
Text and the same Text marker occurs again in the new remaining). -/
def splitStep (remaining : List Nat) (ti ci fi_ : Nat) : StepOut :=
  match chooseMarker remaining ti with
  | (_, none) => .finished
  | (ty, some b) =>
    let ls := markerFor ty ti
    let b2 := b + ls.length
    match indexByte (remaining.drop b2) 0 with
    | none => .fatal
    | some len =>
      let rest := remaining.drop (b2 + len)
      let next :=
        if ty = SegmentType.text ∧ (bytesIndex ls rest).isSome then (ti, ci, fi_)
        else match ty with
          | .text => (ti + 1, ci, fi_)
          | .choice => (ti, ci + 1, fi_)
          | .filetag => (ti, ci, fi_ + 1)
          | .structural => (ti, ci, fi_)
      .step { pre := remaining.take b2, ty := ty, idx := idxOf ty ti ci fi_,
              payload := (remaining.drop b2).take len, rest := rest,
              textIdx := next.1, choiceIdx := next.2.1, fileTagIdx := next.2.2 }

/-- The scanner loop.  `fuel` bounds the number of iterations; every
iteration strictly shrinks `remaining`, so `remaining.length + 1` fuel is
always enough.  `none` models the source's `log.Fatal` on a marker with no
zero terminator. -/
def splitFileAux : Nat → List Nat → Nat → Nat → Nat → Option (List ScnSegment)
  | 0, _, _, _, _ => none
  | fuel + 1, remaining, ti, ci, fi_ =>
    match splitStep remaining ti ci fi_ with
    | .fatal => none
    | .finished => some [{ lineType := .structural, lineIndex := 0, data := remaining }]
    | .step r =>
      (splitFileAux fuel r.rest r.textIdx r.choiceIdx r.fileTagIdx).map
        (fun segs =>
          { lineType := .structural, lineIndex := 0, data := r.pre } ::
          { lineType := r.ty, lineIndex := r.idx, data := r.payload } :: segs)

/-- `splitFile` from the source: parse an SCN file into segments.
`none` corresponds to the source's fatal "did not find end to line". -/
def splitFile (data : List Nat) : Option (List ScnSegment) :=
  splitFileAux (data.length + 1) data 0 0 0

/-- `combineSegments` from the source: concatenate the segments' bytes. -/
def combineSegments (segs : List ScnSegment) : List Nat :=
  segs.foldr (fun s acc => s.data ++ acc) []

/-- Tie-break ranking of the marker kinds: Text beats Choice beats FileTag
(the order of the scanner's selection chain). -/
def priority : SegmentType → Nat
  | .structural => 0
  | .filetag => 1
  | .choice => 2
  | .text => 3

/-- `pat` occurs in `l` at byte offset `b`. -/
def occursAt (pat l : List Nat) (b : Nat) : Prop :=
  pat.isPrefixOf (l.drop b) = true

/-- The byte offset at which the matched marker of a scanner step starts
(recovered from the structural prefix, which ends with the marker). -/
def beginOf (r : StepResult) (ti : Nat) : Nat :=
  r.pre.length - (markerFor r.ty ti).length

/-- Whether a segment is a Text segment. -/
def isTextSeg (s : ScnSegment) : Bool :=
  match s.lineType with
  | .text => true
  | _ => false

/-- Payload/terminator discipline of a scanned segment list: every
semantic segment has a zero-free payload and is immediately followed by a
structural segment whose first byte is the zero terminator; a semantic
segment is never last. -/
def segsWellNul : List ScnSegment → Bool
  | [] => true
  | [s] => decide (s.lineType = SegmentType.structural)
  | s :: t :: rest =>
    (decide (s.lineType = SegmentType.structural) ||
      (decide ((0 : Nat) ∉ s.data) && decide (t.lineType = SegmentType.structural) &&
        decide (t.data.head? = some 0))) &&
    segsWellNul (t :: rest)

/-- Truncation to 32 bits (Go `uint32` conversion). -/
def u32 (n : Nat) : Nat := n % 4294967296

/-- Go `uint32` subtraction (wraps modulo `2^32`). -/
def u32sub (a b : Nat) : Nat := (u32 a + 4294967296 - u32 b) % 4294967296

/-- Go `uint32` addition (wraps modulo `2^32`). -/
def u32add (a b : Nat) : Nat := u32 (a + b)

/-- `binary.LittleEndian.PutUint32(data[off:], v)`: overwrite the four
bytes at `[off, off+4)` with the little-endian encoding of `v`; `none`
models the Go panic when fewer than four bytes are available. -/
def putUint32LE (data : List Nat) (off v : Nat) : Option (List Nat) :=
  if off + 4 ≤ data.length then
    some (data.take off ++ le4 v ++ data.drop (off + 4))
  else none

/-- The byte of `l` at index `i` (0 out of range; used only in-range). -/
def byteAt (l : List Nat) (i : Nat) : Nat := (l[i]?).getD 0

/-- `binary.LittleEndian.Uint32(data[off:])` (also `getFileSizeHeader`
for `off = 0`): read four bytes little-endian. -/
def readUint32LE (l : List Nat) (off : Nat) : Nat :=
  byteAt l off + 256 * (byteAt l (off + 1) +
    256 * (byteAt l (off + 2) + 256 * byteAt l (off + 3)))

/-- The position-collection loop of `fixFileSizeHeader`: walk the
segments accumulating a `uint32` byte position, recording the position at
which each FileTag segment's payload begins. -/
def choicePositionsAux : Nat → List ScnSegment → List Nat
  | _, [] => []
  | pos, s :: rest =>
    let tail := choicePositionsAux (u32add pos s.data.length) rest
    if s.lineType = SegmentType.filetag then pos :: tail else tail

/-- `choicePos` as computed by `fixFileSizeHeader` (start position 0). -/
def choicePositions (segs : List ScnSegment) : List Nat :=
  choicePositionsAux 0 segs

/-- Specification-level FileTag payload offsets: plain natural-number
prefix sums of payload lengths (no 32-bit wrap-around). -/
def ftOffsetsAux : Nat → List ScnSegment → List Nat
  | _, [] => []
  | pos, s :: rest =>
    let tail := ftOffsetsAux (pos + s.data.length) rest
    if s.lineType = SegmentType.filetag then pos :: tail else tail

/-- The body offsets at which the FileTag segments' payloads begin. -/
def fileTagPayloadOffsets (segs : List ScnSegment) : List Nat :=
  ftOffsetsAux 0 segs

/-- Number of FileTag segments in a segment list. -/
def countFileTags (segs : List ScnSegment) : Nat :=
  (segs.filter fun s => decide (s.lineType = SegmentType.filetag)).length

/-- Sum of the payload lengths of a segment list. -/
def sumLens (segs : List ScnSegment) : Nat :=
  segs.foldr (fun s acc => s.data.length + acc) 0

/-- The table-writing loop of `fixFileSizeHeader`: for record `i` write
`choicePos[i] - fileSizeOffset - len(fileTagStart)` (uint32 arithmetic)
at byte offset `12 + 36*i + 32`. -/
def writeChoiceOffsets (fileSizeOffset : Nat) : List Nat → List Nat → Nat → Option (List Nat)
  | data, [], _ => some data
  | data, p :: ps, i =>
    match putUint32LE data (12 + 36 * i + 32)
        (u32sub (u32sub p fileSizeOffset) fileTagStart.length) with
    | none => none
    | some d => writeChoiceOffsets fileSizeOffset d ps (i + 1)

/-- `fixFileSizeHeader` from the source: rewrite `total_size` at offset 0
as `uint32(len(data)) - fileSizeOffset`; when `fileSizeOffset > 12`,
additionally patch the `(fileSizeOffset-12)/36` choice-table records —
unless the number of FileTag segments found differs, in which case warn
and leave the table untouched. -/
def fixFileSizeHeader (data : List Nat) (fileSizeOffset : Nat)
    (segs : List ScnSegment) : Option (List Nat) :=
  match putUint32LE data 0 (u32sub data.length fileSizeOffset) with
  | none => none
  | some d =>
    if fileSizeOffset ≤ 12 then some d
    else
      let numChoices := (fileSizeOffset - 12) / 36
      let ps := choicePositions segs
      if ps.length = numChoices then writeChoiceOffsets fileSizeOffset d ps 0
      else some d

/-- `strictSizeMode` from the source: the per-file Strict-Size Policy. -/
def strictSizeMode (base : String) : Bool :=
  match base with
  | "2_6_6.scn" => true
  | "4_12_1.scn" => true
  | _ => false

/-- The strict-size substitution branch of `patch` (lines 492-503): a
longer replacement is rejected (original kept); a shorter one is
right-padded with spaces (0x20) to the original payload length. -/
def strictSubst (orig eng : List Nat) : List Nat :=
  if eng.length > orig.length then orig
  else if eng.length < orig.length then
    eng ++ List.replicate (orig.length - eng.length) 32
  else eng

/-- ASCII digit test (the regex class `[0-9]`). -/
def isDigit (b : Nat) : Bool := 48 ≤ b && b ≤ 57

/-- Drop a maximal run of ASCII digits (the greedy `[0-9]+` tail). -/
def dropDigits : List Nat → List Nat
  | [] => []
  | d :: rest => if isDigit d then dropDigits rest else d :: rest

/-- Whether a byte list starts with an ASCII digit. -/
def headIsDigit (l : List Nat) : Bool :=
  match l.head? with
  | some d => isDigit d
  | none => false

/-- `colorRE.ReplaceAllString(s, "")`: remove every non-overlapping,
leftmost-first match of backslash, letter c, one or more digits
(bytes 0x5c 0x63 then `[0-9]+`).  The fuel is one more than the length;
each step consumes at least one byte. -/
def stripColorFuel : Nat → List Nat → List Nat
  | 0, l => l
  | _ + 1, [] => []
  | fuel + 1, b :: rest =>
    if b = 92 ∧ rest.head? = some 99 ∧ headIsDigit (rest.drop 1) = true then
      stripColorFuel fuel (dropDigits (rest.drop 1))
    else b :: stripColorFuel fuel rest

/-- Color-directive removal at canonical fuel. -/
def stripColor (l : List Nat) : List Nat := stripColorFuel (l.length + 1) l

/-- `voiceRE.ReplaceAllString(s, "")` with the source's pattern:
backslash, letter V, a double-quoted span of non-quote bytes, then one
more double quote (bytes 0x5c 0x56 0x22, a run without 0x22, 0x22 0x22). -/
def stripVoiceFuel : Nat → List Nat → List Nat
  | 0, l => l
  | _ + 1, [] => []
  | fuel + 1, b :: rest =>
    if b = 92 ∧ rest.take 2 = [86, 34] then
      if ((rest.drop 2).drop
            ((rest.drop 2).takeWhile fun x => decide (x ≠ 34)).length).take 2 =
          [34, 34] then
        stripVoiceFuel fuel
          (((rest.drop 2).drop
            ((rest.drop 2).takeWhile fun x => decide (x ≠ 34)).length).drop 2)
      else b :: stripVoiceFuel fuel rest
    else b :: stripVoiceFuel fuel rest

/-- Voice-directive removal at canonical fuel. -/
def stripVoice (l : List Nat) : List Nat := stripVoiceFuel (l.length + 1) l

/-- `lineLength` from the source: the visible length used by the word
wrapper — the byte length after stripping the color directives and then
the voice-cue directives.  (Both regexes are ASCII patterns whose
character classes cannot match inside a multi-byte UTF-8 sequence, so
byte-level scanning coincides with Go's rune-level matching on UTF-8
input, and Go's `len` counts bytes.) -/
def lineLength (s : List Nat) : Nat := (stripVoice (stripColor s)).length

/-- Modelled from claim C8's words (not the source): voice-cue removal
for the pattern backslash, letter V, a double-quoted span — with a
single closing quote. -/
def stripVoiceSingleFuel : Nat → List Nat → List Nat
  | 0, l => l
  | _ + 1, [] => []
  | fuel + 1, b :: rest =>
    if b = 92 ∧ rest.take 2 = [86, 34] then
      if ((rest.drop 2).drop
            ((rest.drop 2).takeWhile fun x => decide (x ≠ 34)).length).take 1 =
          [34] then
        stripVoiceSingleFuel fuel
          (((rest.drop 2).drop
            ((rest.drop 2).takeWhile fun x => decide (x ≠ 34)).length).drop 1)
      else b :: stripVoiceSingleFuel fuel rest
    else b :: stripVoiceSingleFuel fuel rest

/-- Modelled from claim C8's words: visible length after removing color
directives and single-closing-quote voice directives. -/
def specVisibleLengthClaimed (s : List Nat) : Nat :=
  (stripVoiceSingleFuel ((stripColor s).length + 1) (stripColor s)).length

/-- Single-pass count of the bytes that survive removal of the
as-implemented voice-cue pattern (backslash, V, quoted span, extra
quote): a specification-level reformulation of the voice strip. -/
def countVoiceFuel : Nat → List Nat → Nat
  | 0, l => l.length
  | _ + 1, [] => 0
  | fuel + 1, b :: rest =>
    if b = 92 ∧ rest.take 2 = [86, 34] then
      if ((rest.drop 2).drop
            ((rest.drop 2).takeWhile fun x => decide (x ≠ 34)).length).take 2 =
          [34, 34] then
        countVoiceFuel fuel
          (((rest.drop 2).drop
            ((rest.drop 2).takeWhile fun x => decide (x ≠ 34)).length).drop 2)
      else 1 + countVoiceFuel fuel rest
    else 1 + countVoiceFuel fuel rest

/-- Amended specification of the visible length: the number of bytes
surviving color removal and removal of the as-implemented voice-cue
pattern. -/
def specVisibleLengthAmended (s : List Nat) : Nat :=
  countVoiceFuel ((stripColor s).length + 1) (stripColor s)

/-- `parseJIS` from the source, parametric in the external Shift-JIS
decoder (`golang.org/x/text`, outside this repository): return the
decoded string, or the empty string when decoding reports an error. -/
def parseJIS (decode : List Nat → Except Unit String) (data : List Nat) : String :=
  match decode data with
  | .error _ => ""
  | .ok s => s

/-- A byte pattern with wildcard positions (`none` matches any byte):
the byte-level reading of the source's hex-string regexes, whose `..`
wildcards are forced onto byte boundaries by the space layout of
`hexEncode`'s output. -/
def patMatches : List (Option Nat) → List Nat → Bool
  | [], _ => true
  | _ :: _, [] => false
  | p :: ps, b :: bs =>
    (match p with
     | none => true
     | some v => decide (v = b)) && patMatches ps bs

/-- `ReplaceAllString(s, "")` for a byte pattern: scan left to right,
delete each leftmost non-overlapping match, resume after its end. -/
def replaceAllPatFuel : Nat → List (Option Nat) → List Nat → List Nat
  | 0, _, l => l
  | _ + 1, _, [] => []
  | fuel + 1, pat, b :: rest =>
    if patMatches pat (b :: rest) then
      replaceAllPatFuel fuel pat ((b :: rest).drop pat.length)
    else b :: replaceAllPatFuel fuel pat rest

/-- Pattern removal at canonical fuel. -/
def replaceAllPat (pat : List (Option Nat)) (l : List Nat) : List Nat :=
  replaceAllPatFuel (l.length + 1) pat l

/-- `reBubble0`: bytes `f0 45 f2`, then four groups of four wildcard
bytes each preceded by `f2` after the first. -/
def bubblePat0 : List (Option Nat) :=
  [some 0xf0, some 0x45, some 0xf2, none, none, none, none,
   some 0xf2, none, none, none, none,
   some 0xf2, none, none, none, none,
   some 0xf2, none, none, none, none]

/-- `reBubble1`: bytes `f0 46 f2`, four wildcards, `f0 20`. -/
def bubblePat1 : List (Option Nat) :=
  [some 0xf0, some 0x46, some 0xf2, none, none, none, none, some 0xf0, some 0x20]

/-- `reBubble2`: bytes `f0 46 f2 07 00 00 00`. -/
def bubblePat2 : List (Option Nat) :=
  [some 0xf0, some 0x46, some 0xf2, some 0x07, some 0, some 0, some 0]

/-- `removeBubbles` from the source: remove the three bubble patterns in
order.  The source round-trips through `hexEncode`/`hexDecode` and
regexes over the hex text; the explicit spaces in the patterns pin every
match to byte boundaries, so this byte-level model is the same function
(the spec's design notes call the two formulations functionally
identical). -/
def removeBubbles (data : List Nat) : List Nat :=
  replaceAllPat bubblePat2 (replaceAllPat bubblePat1 (replaceAllPat bubblePat0 data))

/-- Whether a byte pattern matches anywhere in the buffer. -/
def hasPatMatch (pat : List (Option Nat)) : List Nat → Bool
  | [] => patMatches pat []
  | b :: rest => patMatches pat (b :: rest) || hasPatMatch pat rest

/-- The bytes produced by one scanner step concatenate back to the
unscanned suffix it consumed. -/
lemma splitStep_concat {remaining : List Nat} {ti ci fi_ : Nat} {r : StepResult}
    (h : splitStep remaining ti ci fi_ = .step r) :
    r.pre ++ r.payload ++ r.rest = remaining := by
  unfold splitStep at h
  cases hcm : chooseMarker remaining ti with
  | mk ty ob =>
    rw [hcm] at h
    cases ob with
    | none => simp at h
    | some b =>
      simp only at h
      cases hib : indexByte (remaining.drop (b + (markerFor ty ti).length)) 0 with
      | none => rw [hib] at h; simp at h
      | some len =>
        rw [hib] at h
        simp only [StepOut.step.injEq] at h
        subst h
        have h1 : remaining.drop (b + (markerFor ty ti).length + len)
            = (remaining.drop (b + (markerFor ty ti).length)).drop len := by
          rw [List.drop_drop, Nat.add_comm]
        rw [List.append_assoc, h1, List.take_append_drop, List.take_append_drop]

/-- Round-trip invariant of the scanner loop: whatever suffix the loop is
run on, a successful scan's segments concatenate back to that suffix. -/
lemma splitFileAux_combine :
    ∀ (fuel : Nat) (remaining : List Nat) (ti ci fi_ : Nat) (segs : List ScnSegment),
      splitFileAux fuel remaining ti ci fi_ = some segs →
      combineSegments segs = remaining := by
  intro fuel
  induction fuel with
  | zero => intro remaining ti ci fi_ segs h; simp [splitFileAux] at h
  | succ fuel ih =>
    intro remaining ti ci fi_ segs h
    rw [splitFileAux] at h
    cases hstep : splitStep remaining ti ci fi_ with
    | fatal => rw [hstep] at h; simp at h
    | finished =>
      rw [hstep] at h
      simp only [Option.some.injEq] at h
      subst h
      simp [combineSegments]
    | step r =>
      rw [hstep] at h
      simp only at h
      cases hrec : splitFileAux fuel r.rest r.textIdx r.choiceIdx r.fileTagIdx with
      | none => rw [hrec] at h; simp at h
      | some segs' =>
        rw [hrec] at h
        simp only [Option.map_some', Option.some.injEq] at h
        subst h
        have hc := ih r.rest r.textIdx r.choiceIdx r.fileTagIdx segs' hrec
        simp only [combineSegments, List.foldr] at hc ⊢
        rw [hc, ← List.append_assoc]
        exact splitStep_concat hstep

/-- A Bool-level contrapositive for `isPrefixOf`. -/
lemma isPrefixOf_eq_false {pat l : List Nat} (hp : ¬ pat.isPrefixOf l = true) :
    pat.isPrefixOf l = false := by
  cases hpf : pat.isPrefixOf l
  · rfl
  · exact absurd hpf hp

/-- `bytesIndex` returns an actual occurrence. -/
lemma bytesIndex_isPrefixOf {pat : List Nat} :
    ∀ {l : List Nat} {b : Nat}, bytesIndex pat l = some b →
      pat.isPrefixOf (l.drop b) = true := by
  intro l
  induction l with
  | nil =>
    intro b h
    simp only [bytesIndex] at h
    split at h
    · rename_i hp
      simp only [Option.some.injEq] at h
      subst h
      simpa using hp
    · simp at h
  | cons a t ih =>
    intro b h
    simp only [bytesIndex] at h
    split at h
    · rename_i hp
      simp only [Option.some.injEq] at h
      subst h
      simpa using hp
    · rcases hb : bytesIndex pat t with _ | b'
      · rw [hb] at h; simp at h
      · rw [hb] at h
        simp only [Option.map_some', Option.some.injEq] at h
        subst h
        simpa using ih hb

/-- `bytesIndex` returns the first occurrence: nothing matches earlier. -/
lemma bytesIndex_min {pat : List Nat} :
    ∀ {l : List Nat} {b : Nat}, bytesIndex pat l = some b →
      ∀ b' < b, pat.isPrefixOf (l.drop b') = false := by
  intro l
  induction l with
  | nil =>
    intro b h b' hb'
    simp only [bytesIndex] at h
    split at h
    · simp only [Option.some.injEq] at h; omega
    · simp at h
  | cons a t ih =>
    intro b h b' hb'
    simp only [bytesIndex] at h
    split at h
    · simp only [Option.some.injEq] at h; omega
    · rcases hb : bytesIndex pat t with _ | b''
      · rw [hb] at h; simp at h
      · rw [hb] at h
        simp only [Option.map_some', Option.some.injEq] at h
        subst h
        cases b' with
        | zero =>
          rename_i hp
          rw [List.drop_zero]
          exact isPrefixOf_eq_false hp
        | succ b' => simpa using ih hb b' (by omega)

/-- When `bytesIndex` finds nothing, the pattern occurs nowhere. -/
lemma bytesIndex_none {pat : List Nat} :
    ∀ {l : List Nat}, bytesIndex pat l = none →
      ∀ b, pat.isPrefixOf (l.drop b) = false := by
  intro l
  induction l with
  | nil =>
    intro h b
    simp only [bytesIndex] at h
    split at h
    · simp at h
    · rename_i hp
      rw [List.drop_nil]
      exact isPrefixOf_eq_false hp
  | cons a t ih =>
    intro h b
    simp only [bytesIndex] at h
    split at h
    · simp at h
    · rename_i hp
      rcases hb : bytesIndex pat t with _ | b2
      · cases b with
        | zero =>
          rw [List.drop_zero]
          exact isPrefixOf_eq_false hp
        | succ b => simpa using ih hb b
      · rw [hb] at h; simp at h

/-- An occurrence forces `bytesIndex` to find one at least as early. -/
lemma bytesIndex_le_of_occurs {pat l : List Nat} {b' : Nat}
    (h : pat.isPrefixOf (l.drop b') = true) :
    ∃ b, bytesIndex pat l = some b ∧ b ≤ b' := by
  rcases hb : bytesIndex pat l with _ | b
  · exact absurd h (by simp [bytesIndex_none hb b'])
  · refine ⟨b, rfl, ?_⟩
    by_contra hlt
    have hmin := bytesIndex_min hb b' (by omega)
    rw [h] at hmin
    simp at hmin

/-- A found occurrence lies within the buffer (nonempty pattern). -/
lemma bytesIndex_bound {pat l : List Nat} {b : Nat} (hp : pat ≠ [])
    (h : bytesIndex pat l = some b) : b + pat.length ≤ l.length := by
  have h1 := bytesIndex_isPrefixOf h
  have h2 : pat.length ≤ (l.drop b).length :=
    ((List.isPrefixOf_iff_prefix.mp h1).length_le)
  have h3 : (l.drop b).length = l.length - b := List.length_drop _ _
  have h4 : 1 ≤ pat.length := List.length_pos.mpr hp
  omega

/-- The three semantic markers are 3 to 5 bytes long. -/
lemma three_le_markerFor_length {ty : SegmentType} (ti : Nat)
    (h : ty ≠ .structural) : 3 ≤ (markerFor ty ti).length := by
  cases ty <;> simp_all [markerFor, lineStart, le4, choiceStart, fileTagStart]

/-- Characterization of the scanner's marker selection: the pick is a
semantic kind whose marker's first occurrence is earliest among the three
searched markers, with Text preferred over Choice over FileTag on ties. -/
lemma chooseMarker_spec {remaining : List Nat} {ti : Nat} {ty : SegmentType}
    {b : Nat} (h : chooseMarker remaining ti = (ty, some b)) :
    ty ≠ SegmentType.structural ∧
    bytesIndex (markerFor ty ti) remaining = some b ∧
    (∀ ty', ty' ≠ SegmentType.structural → ∀ b'',
      bytesIndex (markerFor ty' ti) remaining = some b'' →
      b ≤ b'' ∧ (b'' = b → priority ty' ≤ priority ty)) := by
  rcases htb : bytesIndex (lineStart ti) remaining with _ | tb <;>
    rcases hcb : bytesIndex choiceStart remaining with _ | cb <;>
    rcases hfb : bytesIndex fileTagStart remaining with _ | fb
  · -- no marker at all: contradiction with `some b`
    have hval : chooseMarker remaining ti = (SegmentType.text, none) := by
      simp [chooseMarker, pickEarlier, htb, hcb, hfb]
    rw [hval] at h
    simp at h
  · -- only FileTag occurs
    have hval : chooseMarker remaining ti = (SegmentType.filetag, some fb) := by
      simp [chooseMarker, pickEarlier, htb, hcb, hfb]
    rw [hval] at h
    simp only [Prod.mk.injEq, Option.some.injEq] at h
    obtain ⟨rfl, rfl⟩ := h
    refine ⟨by decide, by simpa [markerFor] using hfb, ?_⟩
    intro ty' hne b'' h''
    cases ty' with
    | structural => exact absurd rfl hne
    | text => simp only [markerFor] at h''; rw [htb] at h''; simp at h''
    | choice => simp only [markerFor] at h''; rw [hcb] at h''; simp at h''
    | filetag =>
      simp only [markerFor] at h''; rw [hfb] at h''
      simp only [Option.some.injEq] at h''
      subst h''
      exact ⟨by omega, fun he => by simp only [priority]; omega⟩
  · -- only Choice occurs
    have hval : chooseMarker remaining ti = (SegmentType.choice, some cb) := by
      simp [chooseMarker, pickEarlier, htb, hcb, hfb]
    rw [hval] at h
    simp only [Prod.mk.injEq, Option.some.injEq] at h
    obtain ⟨rfl, rfl⟩ := h
    refine ⟨by decide, by simpa [markerFor] using hcb, ?_⟩
    intro ty' hne b'' h''
    cases ty' with
    | structural => exact absurd rfl hne
    | text => simp only [markerFor] at h''; rw [htb] at h''; simp at h''
    | filetag => simp only [markerFor] at h''; rw [hfb] at h''; simp at h''
    | choice =>
      simp only [markerFor] at h''; rw [hcb] at h''
      simp only [Option.some.injEq] at h''
      subst h''
      exact ⟨by omega, fun he => by simp only [priority]; omega⟩
  · -- Choice and FileTag occur
    by_cases hfc : fb < cb
    · have hval : chooseMarker remaining ti = (SegmentType.filetag, some fb) := by
        simp [chooseMarker, pickEarlier, htb, hcb, hfb, hfc]
      rw [hval] at h
      simp only [Prod.mk.injEq, Option.some.injEq] at h
      obtain ⟨rfl, rfl⟩ := h
      refine ⟨by decide, by simpa [markerFor] using hfb, ?_⟩
      intro ty' hne b'' h''
      cases ty' with
      | structural => exact absurd rfl hne
      | text => simp only [markerFor] at h''; rw [htb] at h''; simp at h''
      | choice =>
        simp only [markerFor] at h''; rw [hcb] at h''
        simp only [Option.some.injEq] at h''
        subst h''
        exact ⟨by omega, fun he => by simp only [priority]; omega⟩
      | filetag =>
        simp only [markerFor] at h''; rw [hfb] at h''
        simp only [Option.some.injEq] at h''
        subst h''
        exact ⟨by omega, fun he => by simp only [priority]; omega⟩
    · have hval : chooseMarker remaining ti = (SegmentType.choice, some cb) := by
        simp [chooseMarker, pickEarlier, htb, hcb, hfb, hfc]
      rw [hval] at h
      simp only [Prod.mk.injEq, Option.some.injEq] at h
      obtain ⟨rfl, rfl⟩ := h
      refine ⟨by decide, by simpa [markerFor] using hcb, ?_⟩
      intro ty' hne b'' h''
      cases ty' with
      | structural => exact absurd rfl hne
      | text => simp only [markerFor] at h''; rw [htb] at h''; simp at h''
      | choice =>
        simp only [markerFor] at h''; rw [hcb] at h''
        simp only [Option.some.injEq] at h''
        subst h''
        exact ⟨by omega, fun he => by simp only [priority]; omega⟩
      | filetag =>
        simp only [markerFor] at h''; rw [hfb] at h''
        simp only [Option.some.injEq] at h''
        subst h''
        exact ⟨by omega, fun he => by simp only [priority]; omega⟩
  · -- only Text occurs
    have hval : chooseMarker remaining ti = (SegmentType.text, some tb) := by
      simp [chooseMarker, pickEarlier, htb, hcb, hfb]
    rw [hval] at h
    simp only [Prod.mk.injEq, Option.some.injEq] at h
    obtain ⟨rfl, rfl⟩ := h
    refine ⟨by decide, by simpa [markerFor] using htb, ?_⟩
    intro ty' hne b'' h''
    cases ty' with
    | structural => exact absurd rfl hne
    | choice => simp only [markerFor] at h''; rw [hcb] at h''; simp at h''
    | filetag => simp only [markerFor] at h''; rw [hfb] at h''; simp at h''
    | text =>
      simp only [markerFor] at h''; rw [htb] at h''
      simp only [Option.some.injEq] at h''
      subst h''
      exact ⟨by omega, fun he => by simp only [priority]; omega⟩
  · -- Text and FileTag occur
    by_cases hft : fb < tb
    · have hval : chooseMarker remaining ti = (SegmentType.filetag, some fb) := by
        simp [chooseMarker, pickEarlier, htb, hcb, hfb, hft]
      rw [hval] at h
      simp only [Prod.mk.injEq, Option.some.injEq] at h
      obtain ⟨rfl, rfl⟩ := h
      refine ⟨by decide, by simpa [markerFor] using hfb, ?_⟩
      intro ty' hne b'' h''
      cases ty' with
      | structural => exact absurd rfl hne
      | text =>
        simp only [markerFor] at h''; rw [htb] at h''
        simp only [Option.some.injEq] at h''
        subst h''
        exact ⟨by omega, fun he => by simp only [priority]; omega⟩
      | choice => simp only [markerFor] at h''; rw [hcb] at h''; simp at h''
      | filetag =>
        simp only [markerFor] at h''; rw [hfb] at h''
        simp only [Option.some.injEq] at h''
        subst h''
        exact ⟨by omega, fun he => by simp only [priority]; omega⟩
    · have hval : chooseMarker remaining ti = (SegmentType.text, some tb) := by
        simp [chooseMarker, pickEarlier, htb, hcb, hfb, hft]
      rw [hval] at h
      simp only [Prod.mk.injEq, Option.some.injEq] at h
      obtain ⟨rfl, rfl⟩ := h
      refine ⟨by decide, by simpa [markerFor] using htb, ?_⟩
      intro ty' hne b'' h''
      cases ty' with
      | structural => exact absurd rfl hne
      | text =>
        simp only [markerFor] at h''; rw [htb] at h''
        simp only [Option.some.injEq] at h''
        subst h''
        exact ⟨by omega, fun he => by simp only [priority]; omega⟩
      | choice => simp only [markerFor] at h''; rw [hcb] at h''; simp at h''
      | filetag =>
        simp only [markerFor] at h''; rw [hfb] at h''
        simp only [Option.some.injEq] at h''
        subst h''
        exact ⟨by omega, fun he => by simp only [priority]; omega⟩
  · -- Text and Choice occur
    by_cases hct : cb < tb
    · have hval : chooseMarker remaining ti = (SegmentType.choice, some cb) := by
        simp [chooseMarker, pickEarlier, htb, hcb, hfb, hct]
      rw [hval] at h
      simp only [Prod.mk.injEq, Option.some.injEq] at h
      obtain ⟨rfl, rfl⟩ := h
      refine ⟨by decide, by simpa [markerFor] using hcb, ?_⟩
      intro ty' hne b'' h''
      cases ty' with
      | structural => exact absurd rfl hne
      | text =>
        simp only [markerFor] at h''; rw [htb] at h''
        simp only [Option.some.injEq] at h''
        subst h''
        exact ⟨by omega, fun he => by simp only [priority]; omega⟩
      | choice =>
        simp only [markerFor] at h''; rw [hcb] at h''
        simp only [Option.some.injEq] at h''
        subst h''
        exact ⟨by omega, fun he => by simp only [priority]; omega⟩
      | filetag => simp only [markerFor] at h''; rw [hfb] at h''; simp at h''
    · have hval : chooseMarker remaining ti = (SegmentType.text, some tb) := by
        simp [chooseMarker, pickEarlier, htb, hcb, hfb, hct]
      rw [hval] at h
      simp only [Prod.mk.injEq, Option.some.injEq] at h
      obtain ⟨rfl, rfl⟩ := h
      refine ⟨by decide, by simpa [markerFor] using htb, ?_⟩
      intro ty' hne b'' h''
      cases ty' with
      | structural => exact absurd rfl hne
      | text =>
        simp only [markerFor] at h''; rw [htb] at h''
        simp only [Option.some.injEq] at h''
        subst h''
        exact ⟨by omega, fun he => by simp only [priority]; omega⟩
      | choice =>
        simp only [markerFor] at h''; rw [hcb] at h''
        simp only [Option.some.injEq] at h''
        subst h''
        exact ⟨by omega, fun he => by simp only [priority]; omega⟩
      | filetag => simp only [markerFor] at h''; rw [hfb] at h''; simp at h''
  · -- all three occur
    by_cases hct : cb < tb
    · by_cases hfc : fb < cb
      · have hval : chooseMarker remaining ti = (SegmentType.filetag, some fb) := by
          simp [chooseMarker, pickEarlier, htb, hcb, hfb, hct, hfc]
        rw [hval] at h
        simp only [Prod.mk.injEq, Option.some.injEq] at h
        obtain ⟨rfl, rfl⟩ := h
        refine ⟨by decide, by simpa [markerFor] using hfb, ?_⟩
        intro ty' hne b'' h''
        cases ty' with
        | structural => exact absurd rfl hne
        | text =>
          simp only [markerFor] at h''; rw [htb] at h''
          simp only [Option.some.injEq] at h''
          subst h''
          exact ⟨by omega, fun he => by simp only [priority]; omega⟩
        | choice =>
          simp only [markerFor] at h''; rw [hcb] at h''
          simp only [Option.some.injEq] at h''
          subst h''
          exact ⟨by omega, fun he => by simp only [priority]; omega⟩
        | filetag =>
          simp only [markerFor] at h''; rw [hfb] at h''
          simp only [Option.some.injEq] at h''
          subst h''
          exact ⟨by omega, fun he => by simp only [priority]; omega⟩
      · have hval : chooseMarker remaining ti = (SegmentType.choice, some cb) := by
          simp [chooseMarker, pickEarlier, htb, hcb, hfb, hct, hfc]
        rw [hval] at h
        simp only [Prod.mk.injEq, Option.some.injEq] at h
        obtain ⟨rfl, rfl⟩ := h
        refine ⟨by decide, by simpa [markerFor] using hcb, ?_⟩
        intro ty' hne b'' h''
        cases ty' with
        | structural => exact absurd rfl hne
        | text =>
          simp only [markerFor] at h''; rw [htb] at h''
          simp only [Option.some.injEq] at h''
          subst h''
          exact ⟨by omega, fun he => by simp only [priority]; omega⟩
        | choice =>
          simp only [markerFor] at h''; rw [hcb] at h''
          simp only [Option.some.injEq] at h''
          subst h''
          exact ⟨by omega, fun he => by simp only [priority]; omega⟩
        | filetag =>
          simp only [markerFor] at h''; rw [hfb] at h''
          simp only [Option.some.injEq] at h''
          subst h''
          exact ⟨by omega, fun he => by simp only [priority]; omega⟩
    · by_cases hft : fb < tb
      · have hval : chooseMarker remaining ti = (SegmentType.filetag, some fb) := by
          simp [chooseMarker, pickEarlier, htb, hcb, hfb, hct, hft]
        rw [hval] at h
        simp only [Prod.mk.injEq, Option.some.injEq] at h
        obtain ⟨rfl, rfl⟩ := h
        refine ⟨by decide, by simpa [markerFor] using hfb, ?_⟩
        intro ty' hne b'' h''
        cases ty' with
        | structural => exact absurd rfl hne
        | text =>
          simp only [markerFor] at h''; rw [htb] at h''
          simp only [Option.some.injEq] at h''
          subst h''
          exact ⟨by omega, fun he => by simp only [priority]; omega⟩
        | choice =>
          simp only [markerFor] at h''; rw [hcb] at h''
          simp only [Option.some.injEq] at h''
          subst h''
          exact ⟨by omega, fun he => by simp only [priority]; omega⟩
        | filetag =>
          simp only [markerFor] at h''; rw [hfb] at h''
          simp only [Option.some.injEq] at h''
          subst h''
          exact ⟨by omega, fun he => by simp only [priority]; omega⟩
      · have hval : chooseMarker remaining ti = (SegmentType.text, some tb) := by
          simp [chooseMarker, pickEarlier, htb, hcb, hfb, hct, hft]
        rw [hval] at h
        simp only [Prod.mk.injEq, Option.some.injEq] at h
        obtain ⟨rfl, rfl⟩ := h
        refine ⟨by decide, by simpa [markerFor] using htb, ?_⟩
        intro ty' hne b'' h''
        cases ty' with
        | structural => exact absurd rfl hne
        | text =>
          simp only [markerFor] at h''; rw [htb] at h''
          simp only [Option.some.injEq] at h''
          subst h''
          exact ⟨by omega, fun he => by simp only [priority]; omega⟩
        | choice =>
          simp only [markerFor] at h''; rw [hcb] at h''
          simp only [Option.some.injEq] at h''
          subst h''
          exact ⟨by omega, fun he => by simp only [priority]; omega⟩
        | filetag =>
          simp only [markerFor] at h''; rw [hfb] at h''
          simp only [Option.some.injEq] at h''
          subst h''
          exact ⟨by omega, fun he => by simp only [priority]; omega⟩

/-- Inversion of a successful scanner step: how every field of the
`StepResult` is computed. -/
lemma splitStep_step_inv {remaining : List Nat} {ti ci fi_ : Nat} {r : StepResult}
    (h : splitStep remaining ti ci fi_ = .step r) :
    ∃ b len,
      chooseMarker remaining ti = (r.ty, some b) ∧
      indexByte (remaining.drop (b + (markerFor r.ty ti).length)) 0 = some len ∧
      r.pre = remaining.take (b + (markerFor r.ty ti).length) ∧
      r.payload = (remaining.drop (b + (markerFor r.ty ti).length)).take len ∧
      r.rest = remaining.drop (b + (markerFor r.ty ti).length + len) ∧
      r.idx = idxOf r.ty ti ci fi_ ∧
      (r.textIdx, r.choiceIdx, r.fileTagIdx) =
        (if r.ty = SegmentType.text ∧ (bytesIndex (markerFor r.ty ti) r.rest).isSome
         then (ti, ci, fi_)
         else match r.ty with
           | .text => (ti + 1, ci, fi_)
           | .choice => (ti, ci + 1, fi_)
           | .filetag => (ti, ci, fi_ + 1)
           | .structural => (ti, ci, fi_)) := by
  unfold splitStep at h
  cases hcm : chooseMarker remaining ti with
  | mk ty ob =>
    rw [hcm] at h
    cases ob with
    | none => simp at h
    | some b =>
      simp only at h
      cases hib : indexByte (remaining.drop (b + (markerFor ty ti).length)) 0 with
      | none => rw [hib] at h; simp at h
      | some len =>
        rw [hib] at h
        simp only [StepOut.step.injEq] at h
        subst h
        exact ⟨b, len, rfl, hib, rfl, rfl, rfl, rfl, rfl⟩

/-- Every successful scanner step strictly shrinks the unscanned suffix. -/
lemma splitStep_rest_lt {remaining : List Nat} {ti ci fi_ : Nat} {r : StepResult}
    (h : splitStep remaining ti ci fi_ = .step r) :
    r.rest.length < remaining.length := by
  obtain ⟨b, len, hcm, hib, -, -, hrest, -, -⟩ := splitStep_step_inv h
  obtain ⟨hty, hfound, -⟩ := chooseMarker_spec hcm
  have hml := three_le_markerFor_length ti hty
  have hne : markerFor r.ty ti ≠ [] := by
    intro hnil
    rw [hnil] at hml
    simp at hml
  have hbd := bytesIndex_bound hne hfound
  rw [hrest]
  have hdl := List.length_drop (b + (markerFor r.ty ti).length + len) remaining
  omega

/-- The scanner's result does not depend on the fuel, as long as there is
more fuel than bytes: every iteration consumes at least one byte. -/
lemma splitFileAux_fuel :
    ∀ (fuel fuel' : Nat) (remaining : List Nat) (ti ci fi_ : Nat),
      remaining.length < fuel → remaining.length < fuel' →
      splitFileAux fuel remaining ti ci fi_ = splitFileAux fuel' remaining ti ci fi_ := by
  intro fuel
  induction fuel with
  | zero => intro fuel' remaining ti ci fi_ h h'; omega
  | succ n ih =>
    intro fuel' remaining ti ci fi_ h h'
    cases fuel' with
    | zero => omega
    | succ m =>
      rw [splitFileAux, splitFileAux]
      cases hstep : splitStep remaining ti ci fi_ with
      | fatal => rfl
      | finished => rfl
      | step r =>
        simp only
        have hlt := splitStep_rest_lt hstep
        rw [ih m r.rest r.textIdx r.choiceIdx r.fileTagIdx (by omega) (by omega)]

/-- C1: for every buffer on which the Segment Scanner succeeds,
concatenating the payloads of all returned segments in list order
reproduces the input buffer byte-for-byte (the scanner's internal
round-trip assertion never fails), including the empty buffer and buffers
containing no markers. -/
theorem splitFile_roundtrip (data : List Nat) (segs : List ScnSegment)
    (h : splitFile data = some segs) : combineSegments segs = data :=
  splitFileAux_combine (data.length + 1) data 0 0 0 segs h

/-- Witness for C1 at a concrete buffer holding one Text line. -/
theorem splitFile_roundtrip_witness :
    splitFile [0xf3, 0, 0, 0, 0, 65, 66, 0] =
      some [{ lineType := .structural, lineIndex := 0, data := [0xf3, 0, 0, 0, 0] },
            { lineType := .text, lineIndex := 0, data := [65, 66] },
            { lineType := .structural, lineIndex := 0, data := [0] }] ∧
    combineSegments
        [{ lineType := .structural, lineIndex := 0, data := [0xf3, 0, 0, 0, 0] },
         { lineType := .text, lineIndex := 0, data := [65, 66] },
         { lineType := .structural, lineIndex := 0, data := [0] }] =
      [0xf3, 0, 0, 0, 0, 65, 66, 0] :=
  ⟨by decide, splitFile_roundtrip _ _ (by decide)⟩

/-- C5: each scanner step emits the semantic kind whose marker occurs
earliest (smallest byte offset) in the unscanned suffix among the Text
marker for the current Text counter, the Choice marker and the FileTag
marker; at equal offsets Text is preferred over Choice and Choice over
FileTag. -/
theorem splitStep_earliest_marker (remaining : List Nat) (ti ci fi_ : Nat)
    (r : StepResult) (h : splitStep remaining ti ci fi_ = .step r) :
    r.ty ≠ SegmentType.structural ∧
    occursAt (markerFor r.ty ti) remaining (beginOf r ti) ∧
    ∀ ty', ty' ≠ SegmentType.structural → ∀ b',
      occursAt (markerFor ty' ti) remaining b' →
      beginOf r ti ≤ b' ∧ (b' = beginOf r ti → priority ty' ≤ priority r.ty) := by
  obtain ⟨b, len, hcm, hib, hpre, -, -, -, -⟩ := splitStep_step_inv h
  obtain ⟨hty, hfound, hmin⟩ := chooseMarker_spec hcm
  have hml := three_le_markerFor_length ti hty
  have hne : markerFor r.ty ti ≠ [] := by
    intro hnil
    rw [hnil] at hml
    simp at hml
  have hbd := bytesIndex_bound hne hfound
  have hbeg : beginOf r ti = b := by
    rw [beginOf, hpre, List.length_take]
    omega
  rw [hbeg]
  refine ⟨hty, bytesIndex_isPrefixOf hfound, ?_⟩
  intro ty' hne' b' hocc
  obtain ⟨b'', hb'', hle⟩ := bytesIndex_le_of_occurs hocc
  have hm := hmin ty' hne' b'' hb''
  refine ⟨by omega, fun heq => ?_⟩
  exact hm.2 (by omega)

/-- Witness for C5: a buffer holding a Text line then a Choice; the step
emits the Text segment, whose marker occurs first. -/
theorem splitStep_earliest_marker_witness :
    splitStep [0xf3, 0, 0, 0, 0, 65, 0, 0xf0, 0x1c, 0xf1, 66, 0] 0 0 0 =
      StepOut.step { pre := [0xf3, 0, 0, 0, 0], ty := .text, idx := 0,
                     payload := [65], rest := [0, 0xf0, 0x1c, 0xf1, 66, 0],
                     textIdx := 1, choiceIdx := 0, fileTagIdx := 0 } ∧
    ({ pre := [0xf3, 0, 0, 0, 0], ty := .text, idx := 0,
       payload := [65], rest := [0, 0xf0, 0x1c, 0xf1, 66, 0],
       textIdx := 1, choiceIdx := 0, fileTagIdx := 0 } : StepResult).ty ≠
        SegmentType.structural ∧
    occursAt
      (markerFor
        ({ pre := [0xf3, 0, 0, 0, 0], ty := .text, idx := 0,
           payload := [65], rest := [0, 0xf0, 0x1c, 0xf1, 66, 0],
           textIdx := 1, choiceIdx := 0, fileTagIdx := 0 } : StepResult).ty 0)
      [0xf3, 0, 0, 0, 0, 65, 0, 0xf0, 0x1c, 0xf1, 66, 0]
      (beginOf
        { pre := [0xf3, 0, 0, 0, 0], ty := .text, idx := 0,
          payload := [65], rest := [0, 0xf0, 0x1c, 0xf1, 66, 0],
          textIdx := 1, choiceIdx := 0, fileTagIdx := 0 } 0) ∧
    ∀ ty', ty' ≠ SegmentType.structural → ∀ b',
      occursAt (markerFor ty' 0) [0xf3, 0, 0, 0, 0, 65, 0, 0xf0, 0x1c, 0xf1, 66, 0] b' →
      beginOf
          { pre := [0xf3, 0, 0, 0, 0], ty := .text, idx := 0,
            payload := [65], rest := [0, 0xf0, 0x1c, 0xf1, 66, 0],
            textIdx := 1, choiceIdx := 0, fileTagIdx := 0 } 0 ≤ b' ∧
        (b' = beginOf
            { pre := [0xf3, 0, 0, 0, 0], ty := .text, idx := 0,
              payload := [65], rest := [0, 0xf0, 0x1c, 0xf1, 66, 0],
              textIdx := 1, choiceIdx := 0, fileTagIdx := 0 } 0 →
          priority ty' ≤ priority SegmentType.text) :=
  ⟨by decide, splitStep_earliest_marker _ 0 0 0 _ (by decide)⟩

/-- Until a Text segment is emitted the Text counter does not move: the
first Text segment found in any successful continuation of the scan
carries the Text counter the scan started with. -/
lemma firstText_idx :
    ∀ (fuel : Nat) (remaining : List Nat) (ti ci fi_ : Nat)
      (segs : List ScnSegment) (s : ScnSegment),
      splitFileAux fuel remaining ti ci fi_ = some segs →
      segs.find? isTextSeg = some s → s.lineIndex = ti := by
  intro fuel
  induction fuel with
  | zero => intro remaining ti ci fi_ segs s h hf; simp [splitFileAux] at h
  | succ n ih =>
    intro remaining ti ci fi_ segs s h hf
    rw [splitFileAux] at h
    cases hstep : splitStep remaining ti ci fi_ with
    | fatal => rw [hstep] at h; simp at h
    | finished =>
      rw [hstep] at h
      simp only [Option.some.injEq] at h
      subst h
      simp [List.find?, isTextSeg] at hf
    | step r =>
      rw [hstep] at h
      simp only at h
      cases hrec : splitFileAux n r.rest r.textIdx r.choiceIdx r.fileTagIdx with
      | none => rw [hrec] at h; simp at h
      | some segs' =>
        rw [hrec] at h
        simp only [Option.map_some', Option.some.injEq] at h
        subst h
        obtain ⟨b, len, hcm, -, -, -, -, hidx, hcnt⟩ := splitStep_step_inv hstep
        obtain ⟨hty, -, -⟩ := chooseMarker_spec hcm
        simp only [List.find?, isTextSeg] at hf
        cases hrt : r.ty with
        | structural => exact absurd hrt hty
        | text =>
          rw [hrt] at hf
          simp only at hf
          simp only [Option.some.injEq] at hf
          subst hf
          simp only [hidx, hrt, idxOf]
        | choice =>
          rw [hrt] at hf
          simp only at hf
          rw [hrt] at hcnt
          simp only [bytesIndex, reduceCtorEq, false_and, if_false] at hcnt
          simp only [Prod.mk.injEq] at hcnt
          obtain ⟨ht, -, -⟩ := hcnt
          have := ih r.rest r.textIdx r.choiceIdx r.fileTagIdx segs' s hrec hf
          omega
        | filetag =>
          rw [hrt] at hf
          simp only at hf
          rw [hrt] at hcnt
          simp only [bytesIndex, reduceCtorEq, false_and, if_false] at hcnt
          simp only [Prod.mk.injEq] at hcnt
          obtain ⟨ht, -, -⟩ := hcnt
          have := ih r.rest r.textIdx r.choiceIdx r.fileTagIdx segs' s hrec hf
          omega

/-- C4: a scanner step that emits a semantic segment of kind `k` with
counter value `n` leaves the other counters unchanged and increments
`k`'s counter to `n + 1` — except when `k` is Text and the same Text
marker occurs again in the new unscanned suffix, in which case the Text
counter stays at `n` and the next Text segment emitted by the rest of the
scan carries the same sequence index `n`. -/
theorem splitStep_continuation (remaining : List Nat) (ti ci fi_ : Nat)
    (r : StepResult) (h : splitStep remaining ti ci fi_ = .step r) :
    r.ty ≠ SegmentType.structural ∧
    (r.ty = SegmentType.text →
      r.idx = ti ∧ r.choiceIdx = ci ∧ r.fileTagIdx = fi_ ∧
      ((bytesIndex (lineStart ti) r.rest).isSome = true →
        r.textIdx = ti ∧
        ∀ fuel segs s,
          splitFileAux fuel r.rest r.textIdx r.choiceIdx r.fileTagIdx = some segs →
          segs.find? isTextSeg = some s → s.lineIndex = ti) ∧
      ((bytesIndex (lineStart ti) r.rest).isSome = false → r.textIdx = ti + 1)) ∧
    (r.ty = SegmentType.choice →
      r.idx = ci ∧ r.choiceIdx = ci + 1 ∧ r.textIdx = ti ∧ r.fileTagIdx = fi_) ∧
    (r.ty = SegmentType.filetag →
      r.idx = fi_ ∧ r.fileTagIdx = fi_ + 1 ∧ r.textIdx = ti ∧ r.choiceIdx = ci) := by
  obtain ⟨b, len, hcm, hib, -, -, -, hidx, hcnt⟩ := splitStep_step_inv h
  obtain ⟨hty, -, -⟩ := chooseMarker_spec hcm
  refine ⟨hty, ?_, ?_, ?_⟩
  · intro htext
    rw [htext] at hidx hcnt
    simp only [idxOf] at hidx
    simp only [markerFor] at hcnt
    by_cases hs : (bytesIndex (lineStart ti) r.rest).isSome = true
    · rw [if_pos ⟨by trivial, hs⟩] at hcnt
      simp only [Prod.mk.injEq] at hcnt
      obtain ⟨hti, hci, hfi⟩ := hcnt
      refine ⟨hidx, hci, hfi, fun _ => ⟨hti, ?_⟩, fun hs' => by rw [hs] at hs'; cases hs'⟩
      intro fuel segs s h1 h2
      have hfi2 := firstText_idx fuel r.rest r.textIdx r.choiceIdx r.fileTagIdx segs s h1 h2
      omega
    · rw [if_neg (fun hc => hs hc.2)] at hcnt
      simp only [Prod.mk.injEq] at hcnt
      obtain ⟨hti, hci, hfi⟩ := hcnt
      refine ⟨hidx, hci, hfi, fun hs' => absurd hs' hs, fun _ => hti⟩
  · intro hch
    rw [hch] at hidx hcnt
    simp only [idxOf] at hidx
    simp only [reduceCtorEq, false_and, if_false] at hcnt
    simp only [Prod.mk.injEq] at hcnt
    obtain ⟨hti, hci, hfi⟩ := hcnt
    exact ⟨hidx, hci, hti, hfi⟩
  · intro hft
    rw [hft] at hidx hcnt
    simp only [idxOf] at hidx
    simp only [reduceCtorEq, false_and, if_false] at hcnt
    simp only [Prod.mk.injEq] at hcnt
    obtain ⟨hti, hci, hfi⟩ := hcnt
    exact ⟨hidx, hfi, hti, hci⟩

/-- Witness for C4: a buffer where the Text marker for index 0 occurs
twice (a continuation line); the step does not increment the Text
counter. -/
theorem splitStep_continuation_witness :
    splitStep [0xf3, 0, 0, 0, 0, 65, 0, 0xf3, 0, 0, 0, 0, 66, 0] 0 0 0 =
      StepOut.step { pre := [0xf3, 0, 0, 0, 0], ty := .text, idx := 0,
                     payload := [65], rest := [0, 0xf3, 0, 0, 0, 0, 66, 0],
                     textIdx := 0, choiceIdx := 0, fileTagIdx := 0 } ∧
    ({ pre := [0xf3, 0, 0, 0, 0], ty := .text, idx := 0,
       payload := [65], rest := [0, 0xf3, 0, 0, 0, 0, 66, 0],
       textIdx := 0, choiceIdx := 0, fileTagIdx := 0 } : StepResult).ty ≠
        SegmentType.structural ∧
    (({ pre := [0xf3, 0, 0, 0, 0], ty := .text, idx := 0,
        payload := [65], rest := [0, 0xf3, 0, 0, 0, 0, 66, 0],
        textIdx := 0, choiceIdx := 0, fileTagIdx := 0 } : StepResult).ty =
          SegmentType.text →
      ({ pre := [0xf3, 0, 0, 0, 0], ty := .text, idx := 0,
         payload := [65], rest := [0, 0xf3, 0, 0, 0, 0, 66, 0],
         textIdx := 0, choiceIdx := 0, fileTagIdx := 0 } : StepResult).idx = 0 ∧
      ({ pre := [0xf3, 0, 0, 0, 0], ty := .text, idx := 0,
         payload := [65], rest := [0, 0xf3, 0, 0, 0, 0, 66, 0],
         textIdx := 0, choiceIdx := 0, fileTagIdx := 0 } : StepResult).choiceIdx = 0 ∧
      ({ pre := [0xf3, 0, 0, 0, 0], ty := .text, idx := 0,
         payload := [65], rest := [0, 0xf3, 0, 0, 0, 0, 66, 0],
         textIdx := 0, choiceIdx := 0, fileTagIdx := 0 } : StepResult).fileTagIdx = 0 ∧
      ((bytesIndex (lineStart 0)
          ({ pre := [0xf3, 0, 0, 0, 0], ty := .text, idx := 0,
             payload := [65], rest := [0, 0xf3, 0, 0, 0, 0, 66, 0],
             textIdx := 0, choiceIdx := 0, fileTagIdx := 0 } : StepResult).rest).isSome = true →
        ({ pre := [0xf3, 0, 0, 0, 0], ty := .text, idx := 0,
           payload := [65], rest := [0, 0xf3, 0, 0, 0, 0, 66, 0],
           textIdx := 0, choiceIdx := 0, fileTagIdx := 0 } : StepResult).textIdx = 0 ∧
        ∀ fuel segs s,
          splitFileAux fuel
              ({ pre := [0xf3, 0, 0, 0, 0], ty := .text, idx := 0,
                 payload := [65], rest := [0, 0xf3, 0, 0, 0, 0, 66, 0],
                 textIdx := 0, choiceIdx := 0, fileTagIdx := 0 } : StepResult).rest
              ({ pre := [0xf3, 0, 0, 0, 0], ty := .text, idx := 0,
                 payload := [65], rest := [0, 0xf3, 0, 0, 0, 0, 66, 0],
                 textIdx := 0, choiceIdx := 0, fileTagIdx := 0 } : StepResult).textIdx
              ({ pre := [0xf3, 0, 0, 0, 0], ty := .text, idx := 0,
                 payload := [65], rest := [0, 0xf3, 0, 0, 0, 0, 66, 0],
                 textIdx := 0, choiceIdx := 0, fileTagIdx := 0 } : StepResult).choiceIdx
              ({ pre := [0xf3, 0, 0, 0, 0], ty := .text, idx := 0,
                 payload := [65], rest := [0, 0xf3, 0, 0, 0, 0, 66, 0],
                 textIdx := 0, choiceIdx := 0, fileTagIdx := 0 } : StepResult).fileTagIdx = some segs →
          segs.find? isTextSeg = some s → s.lineIndex = 0) ∧
      ((bytesIndex (lineStart 0)
          ({ pre := [0xf3, 0, 0, 0, 0], ty := .text, idx := 0,
             payload := [65], rest := [0, 0xf3, 0, 0, 0, 0, 66, 0],
             textIdx := 0, choiceIdx := 0, fileTagIdx := 0 } : StepResult).rest).isSome = false →
        ({ pre := [0xf3, 0, 0, 0, 0], ty := .text, idx := 0,
           payload := [65], rest := [0, 0xf3, 0, 0, 0, 0, 66, 0],
           textIdx := 0, choiceIdx := 0, fileTagIdx := 0 } : StepResult).textIdx = 0 + 1)) :=
  ⟨by decide,
   (splitStep_continuation [0xf3, 0, 0, 0, 0, 65, 0, 0xf3, 0, 0, 0, 0, 66, 0] 0 0 0
     { pre := [0xf3, 0, 0, 0, 0], ty := .text, idx := 0,
       payload := [65], rest := [0, 0xf3, 0, 0, 0, 0, 66, 0],
       textIdx := 0, choiceIdx := 0, fileTagIdx := 0 } (by decide)).1,
   (splitStep_continuation [0xf3, 0, 0, 0, 0, 65, 0, 0xf3, 0, 0, 0, 0, 66, 0] 0 0 0
     { pre := [0xf3, 0, 0, 0, 0], ty := .text, idx := 0,
       payload := [65], rest := [0, 0xf3, 0, 0, 0, 0, 66, 0],
       textIdx := 0, choiceIdx := 0, fileTagIdx := 0 } (by decide)).2.1⟩

/-- `indexByte` scans past no occurrence: the byte is absent before the
returned index. -/
lemma indexByte_not_mem_take {c : Nat} :
    ∀ {l : List Nat} {n : Nat}, indexByte l c = some n → c ∉ l.take n := by
  intro l
  induction l with
  | nil => intro n h; simp [indexByte] at h
  | cons a t ih =>
    intro n h
    simp only [indexByte] at h
    split at h
    · simp only [Option.some.injEq] at h
      subst h
      simp
    · rename_i hne
      rcases hb : indexByte t c with _ | n'
      · rw [hb] at h; simp at h
      · rw [hb] at h
        simp only [Option.map_some', Option.some.injEq] at h
        subst h
        simp only [List.take_succ_cons, List.mem_cons, not_or]
        exact ⟨fun hc => hne hc.symm, ih hb⟩

/-- The byte found by `indexByte` sits at the returned index. -/
lemma indexByte_drop_head {c : Nat} :
    ∀ {l : List Nat} {n : Nat}, indexByte l c = some n →
      (l.drop n).head? = some c := by
  intro l
  induction l with
  | nil => intro n h; simp [indexByte] at h
  | cons a t ih =>
    intro n h
    simp only [indexByte] at h
    split at h
    · rename_i he
      simp only [Option.some.injEq] at h
      subst h
      simp [he]
    · rcases hb : indexByte t c with _ | n'
      · rw [hb] at h; simp at h
      · rw [hb] at h
        simp only [Option.map_some', Option.some.injEq] at h
        subst h
        simpa using ih hb

/-- Taking at least one element preserves the head. -/
lemma head?_take {l : List Nat} {n : Nat} (h : 1 ≤ n) :
    (l.take n).head? = l.head? := by
  cases l with
  | nil => simp
  | cons a t =>
    cases n with
    | zero => omega
    | succ n => simp

/-- Scan-loop invariant for C10: a successful scan yields a list whose
semantic payloads are zero-free, each followed by a structural segment
starting with the terminator; the list starts with a structural segment
sharing the suffix's first byte. -/
lemma splitFileAux_wellNul :
    ∀ (fuel : Nat) (remaining : List Nat) (ti ci fi_ : Nat) (segs : List ScnSegment),
      splitFileAux fuel remaining ti ci fi_ = some segs →
      segsWellNul segs = true ∧
      ∃ s rest2, segs = s :: rest2 ∧ s.lineType = SegmentType.structural ∧
        s.data.head? = remaining.head? := by
  intro fuel
  induction fuel with
  | zero => intro remaining ti ci fi_ segs h; simp [splitFileAux] at h
  | succ n ih =>
    intro remaining ti ci fi_ segs h
    rw [splitFileAux] at h
    cases hstep : splitStep remaining ti ci fi_ with
    | fatal => rw [hstep] at h; simp at h
    | finished =>
      rw [hstep] at h
      simp only [Option.some.injEq] at h
      subst h
      exact ⟨by simp [segsWellNul], _, [], rfl, rfl, rfl⟩
    | step r =>
      rw [hstep] at h
      simp only at h
      cases hrec : splitFileAux n r.rest r.textIdx r.choiceIdx r.fileTagIdx with
      | none => rw [hrec] at h; simp at h
      | some segs' =>
        rw [hrec] at h
        simp only [Option.map_some', Option.some.injEq] at h
        subst h
        obtain ⟨hwell', s'', rest'', hseq, hsty, hshead⟩ :=
          ih r.rest r.textIdx r.choiceIdx r.fileTagIdx segs' hrec
        obtain ⟨b, len, hcm, hib, hpre, hpay, hrest, -, -⟩ := splitStep_step_inv hstep
        obtain ⟨hty, hfound, -⟩ := chooseMarker_spec hcm
        have hml := three_le_markerFor_length ti hty
        have hno : (0 : Nat) ∉ r.payload := by
          rw [hpay]
          exact indexByte_not_mem_take hib
        have hrh : r.rest.head? = some 0 := by
          rw [hrest]
          have hdd : remaining.drop (b + (markerFor r.ty ti).length + len)
              = (remaining.drop (b + (markerFor r.ty ti).length)).drop len := by
            rw [List.drop_drop, Nat.add_comm]
          rw [hdd]
          exact indexByte_drop_head hib
        constructor
        · rw [hseq]
          simp only [segsWellNul, Bool.and_eq_true, Bool.or_eq_true, decide_eq_true_eq]
          refine ⟨Or.inl trivial, Or.inr ⟨⟨hno, hsty⟩, ?_⟩, ?_⟩
          · rw [hshead]
            exact hrh
          · rw [hseq] at hwell'
            exact hwell'
        · refine ⟨_, _, rfl, rfl, ?_⟩
          rw [hpre]
          exact head?_take (by omega)

/-- C10: on every buffer where the scanner succeeds, no semantic
segment's payload contains a zero byte; the NUL terminator is excluded
from the payload and is the first byte of the structural segment that
immediately follows it in the returned list. -/
theorem splitFile_nul_exclusion (data : List Nat) (segs : List ScnSegment)
    (h : splitFile data = some segs) : segsWellNul segs = true :=
  (splitFileAux_wellNul (data.length + 1) data 0 0 0 segs h).1

/-- Witness for C10 at a concrete two-line buffer. -/
theorem splitFile_nul_exclusion_witness :
    splitFile [0xf3, 0, 0, 0, 0, 65, 0, 0xf0, 0x1c, 0xf1, 66, 0] =
      some [{ lineType := .structural, lineIndex := 0, data := [0xf3, 0, 0, 0, 0] },
            { lineType := .text, lineIndex := 0, data := [65] },
            { lineType := .structural, lineIndex := 0, data := [0, 0xf0, 0x1c, 0xf1] },
            { lineType := .choice, lineIndex := 0, data := [66] },
            { lineType := .structural, lineIndex := 0, data := [0] }] ∧
    segsWellNul
        [{ lineType := .structural, lineIndex := 0, data := [0xf3, 0, 0, 0, 0] },
         { lineType := .text, lineIndex := 0, data := [65] },
         { lineType := .structural, lineIndex := 0, data := [0, 0xf0, 0x1c, 0xf1] },
         { lineType := .choice, lineIndex := 0, data := [66] },
         { lineType := .structural, lineIndex := 0, data := [0] }] = true :=
  ⟨by decide,
   splitFile_nul_exclusion [0xf3, 0, 0, 0, 0, 65, 0, 0xf0, 0x1c, 0xf1, 66, 0] _ (by decide)⟩

/-- A 32-bit write succeeds exactly in-range, with this image. -/
lemma putUint32LE_some {data : List Nat} {off v : Nat} (h : off + 4 ≤ data.length) :
    putUint32LE data off v =
      some (data.take off ++ le4 v ++ data.drop (off + 4)) := by
  simp [putUint32LE, h]

/-- A 32-bit write preserves the length. -/
lemma putUint32LE_length {data : List Nat} {off v : Nat} (h : off + 4 ≤ data.length) :
    (data.take off ++ le4 v ++ data.drop (off + 4)).length = data.length := by
  simp [le4]
  omega

/-- Bytes before the written window are untouched. -/
lemma putUint32LE_getElem_lt {data : List Nat} {off v i : Nat}
    (h : off + 4 ≤ data.length) (hi : i < off) :
    (data.take off ++ le4 v ++ data.drop (off + 4))[i]? = data[i]? := by
  rw [List.getElem?_append_left, List.getElem?_append_left,
    List.getElem?_take_of_lt hi]
  · rw [List.length_take]
    omega
  · rw [List.length_append, List.length_take]
    simp [le4]
    omega

/-- Bytes past the written window are untouched. -/
lemma putUint32LE_getElem_ge {data : List Nat} {off v i : Nat}
    (h : off + 4 ≤ data.length) (hi : off + 4 ≤ i) :
    (data.take off ++ le4 v ++ data.drop (off + 4))[i]? = data[i]? := by
  have hl1 : (data.take off ++ le4 v).length = off + 4 := by
    rw [List.length_append, List.length_take]
    simp [le4]
    omega
  rw [List.getElem?_append_right (by omega), hl1, List.getElem?_drop]
  congr 1
  omega

/-- Reading back the written window yields the value modulo `2^32`. -/
lemma putUint32LE_read {data : List Nat} {off v : Nat} (h : off + 4 ≤ data.length) :
    readUint32LE (data.take off ++ le4 v ++ data.drop (off + 4)) off = u32 v := by
  have hl0 : (data.take off).length = off := by
    rw [List.length_take]
    omega
  have hj : ∀ j, j < 4 →
      (data.take off ++ le4 v ++ data.drop (off + 4))[off + j]? = (le4 v)[j]? := by
    intro j hjlt
    rw [List.getElem?_append_left, List.getElem?_append_right (by omega), hl0]
    · congr 1
      omega
    · rw [List.length_append, hl0]
      simp only [le4, List.length_cons, List.length_nil]
      omega
  have h0 : (data.take off ++ le4 v ++ data.drop (off + 4))[off]? = (le4 v)[0]? := by
    simpa using hj 0 (by omega)
  have h1 := hj 1 (by omega)
  have h2 := hj 2 (by omega)
  have h3 := hj 3 (by omega)
  unfold readUint32LE byteAt
  rw [h0, h1, h2, h3]
  simp only [le4, List.getElem?_cons_zero, List.getElem?_cons_succ, Option.getD_some]
  show v % 256 + 256 * (v / 256 % 256 + 256 * (v / 65536 % 256 + 256 * (v / 16777216 % 256))) = u32 v
  unfold u32
  omega

/-- Two buffers agreeing on a 4-byte window read the same 32-bit value. -/
lemma readUint32LE_congr {l1 l2 : List Nat} {off : Nat}
    (h : ∀ j, j < 4 → l1[off + j]? = l2[off + j]?) :
    readUint32LE l1 off = readUint32LE l2 off := by
  have h0 : l1[off]? = l2[off]? := by simpa using h 0 (by omega)
  have h1 := h 1 (by omega)
  have h2 := h 2 (by omega)
  have h3 := h 3 (by omega)
  unfold readUint32LE byteAt
  rw [h0, h1, h2, h3]

/-- `u32` is idempotent on `u32sub` results. -/
lemma u32_u32sub (a b : Nat) : u32 (u32sub a b) = u32sub a b := by
  unfold u32 u32sub
  omega

/-- `u32sub` is plain subtraction when no wrap-around occurs. -/
lemma u32sub_of_le {a b : Nat} (h1 : a ≤ b) (h2 : b < 4294967296) :
    u32sub b a = b - a := by
  unfold u32sub u32
  omega

/-- Behaviour of the choice-table writing loop: with every record's
window in range it succeeds, preserves length and all bytes before the
table slice it writes, and each record's offset field reads back as the
written `uint32` value. -/
lemma writeChoiceOffsets_spec (off : Nat) :
    ∀ (ps : List Nat) (i : Nat) (data : List Nat),
      (∀ j, j < ps.length → 12 + 36 * (i + j) + 36 ≤ data.length) →
      ∃ out, writeChoiceOffsets off data ps i = some out ∧
        out.length = data.length ∧
        (∀ m, m < 12 + 36 * i + 32 → out[m]? = data[m]?) ∧
        (∀ j, j < ps.length →
          readUint32LE out (12 + 36 * (i + j) + 32) =
            u32sub (u32sub (ps.getD j 0) off) fileTagStart.length) := by
  intro ps
  induction ps with
  | nil =>
    intro i data hrange
    exact ⟨data, rfl, rfl, fun m _ => rfl, fun j hj => by simp at hj⟩
  | cons p ps ih =>
    intro i data hrange
    have hw : 12 + 36 * i + 32 + 4 ≤ data.length := by
      have := hrange 0 (by simp)
      omega
    have hput := @putUint32LE_some data (12 + 36 * i + 32)
      (u32sub (u32sub p off) fileTagStart.length) hw
    have hlen1 := @putUint32LE_length data (12 + 36 * i + 32)
      (u32sub (u32sub p off) fileTagStart.length) hw
    set d1 := data.take (12 + 36 * i + 32) ++
      le4 (u32sub (u32sub p off) fileTagStart.length) ++
      data.drop (12 + 36 * i + 32 + 4) with hd1
    have hrange' : ∀ j, j < ps.length → 12 + 36 * ((i + 1) + j) + 36 ≤ d1.length := by
      intro j hj
      rw [hlen1]
      have := hrange (j + 1) (by simp; omega)
      omega
    obtain ⟨out, hout, hlen, hpres, hread⟩ := ih (i + 1) d1 hrange'
    refine ⟨out, ?_, by rw [hlen, hlen1], ?_, ?_⟩
    · show writeChoiceOffsets off data (p :: ps) i = some out
      rw [writeChoiceOffsets, hput]
      exact hout
    · intro m hm
      rw [hpres m (by omega)]
      exact putUint32LE_getElem_lt hw (by omega)
    · intro j hj
      cases j with
      | zero =>
        have hcg : readUint32LE out (12 + 36 * (i + 0) + 32) =
            readUint32LE d1 (12 + 36 * (i + 0) + 32) := by
          refine readUint32LE_congr ?_
          intro jj hjj
          exact hpres _ (by omega)
        rw [hcg]
        have : readUint32LE d1 (12 + 36 * i + 32) =
            u32 (u32sub (u32sub p off) fileTagStart.length) := putUint32LE_read hw
        simpa [u32_u32sub] using this
      | succ j' =>
        have hj' : j' < ps.length := by simpa using hj
        have := hread j' hj'
        have harith : 12 + 36 * (i + (j' + 1)) + 32 = 12 + 36 * ((i + 1) + j') + 32 := by
          omega
        rw [harith]
        simpa using this

/-- The collected choice positions are one per FileTag segment. -/
lemma choicePositionsAux_length :
    ∀ (segs : List ScnSegment) (pos : Nat),
      (choicePositionsAux pos segs).length = countFileTags segs := by
  intro segs
  induction segs with
  | nil => intro pos; simp [choicePositionsAux, countFileTags]
  | cons s rest ih =>
    intro pos
    rw [choicePositionsAux]
    by_cases hs : s.lineType = SegmentType.filetag <;>
      simp [countFileTags, List.filter, hs, ih, countFileTags] at *

/-- With no 32-bit overflow the collected positions are the plain
prefix-sum payload offsets. -/
lemma choicePositionsAux_eq_ft :
    ∀ (segs : List ScnSegment) (pos : Nat),
      pos + sumLens segs < 4294967296 →
      choicePositionsAux pos segs = ftOffsetsAux pos segs := by
  intro segs
  induction segs with
  | nil => intro pos _; rfl
  | cons s rest ih =>
    intro pos hlt
    rw [choicePositionsAux, ftOffsetsAux]
    have hsl : sumLens (s :: rest) = s.data.length + sumLens rest := rfl
    have hadd : u32add pos s.data.length = pos + s.data.length := by
      unfold u32add u32
      omega
    rw [hadd, ih (pos + s.data.length) (by omega)]

/-- C2: `fixFileSizeHeader` writes `len(body) - size_offset` little-endian
at bytes [0,4); and when `size_offset > 12` and the FileTag segment count
matches `(size_offset - 12) / 36`, table record `i`'s offset field at
`12 + 36*i + 32` is set to `p_i - size_offset - len(fileTagStart)` in
`uint32` arithmetic, where `p_i` is the body offset at which the `i`-th
FileTag segment's payload begins. -/
theorem fixFileSizeHeader_correct (body : List Nat) (off : Nat) (segs : List ScnSegment)
    (hsum : sumLens segs = body.length) (h4 : 4 ≤ body.length)
    (hoff : off ≤ body.length) (h32 : body.length < 4294967296) :
    ((fixFileSizeHeader body off segs).map List.length = some body.length) ∧
    ((fixFileSizeHeader body off segs).map (fun d => readUint32LE d 0) =
      some (body.length - off)) ∧
    (12 < off → countFileTags segs = (off - 12) / 36 →
      ∀ i, i < (off - 12) / 36 →
        (fixFileSizeHeader body off segs).map
            (fun d => readUint32LE d (12 + 36 * i + 32)) =
          some (u32sub (u32sub ((fileTagPayloadOffsets segs).getD i 0) off)
            fileTagStart.length)) := by
  have h04 : 0 + 4 ≤ body.length := by omega
  have hput := @putUint32LE_some body 0 (u32sub body.length off) h04
  have hdlen := @putUint32LE_length body 0 (u32sub body.length off) h04
  have hdread := @putUint32LE_read body 0 (u32sub body.length off) h04
  set d := body.take 0 ++ le4 (u32sub body.length off) ++ body.drop (0 + 4) with hd
  have hval : u32 (u32sub body.length off) = body.length - off := by
    rw [u32_u32sub]
    exact u32sub_of_le hoff h32
  by_cases h12 : off ≤ 12
  · have hfix : fixFileSizeHeader body off segs = some d := by
      simp only [fixFileSizeHeader, hput, if_pos h12]
    rw [hfix]
    refine ⟨by simpa using hdlen, by simp [hdread, hval], ?_⟩
    intro h12'
    omega
  · have hdivle : 36 * ((off - 12) / 36) ≤ off - 12 := by omega
    by_cases hc : (choicePositions segs).length = (off - 12) / 36
    · have hrange : ∀ j, j < (choicePositions segs).length →
          12 + 36 * (0 + j) + 36 ≤ d.length := by
        intro j hj
        rw [hdlen]
        rw [hc] at hj
        omega
      obtain ⟨out, hout, hlen, hpres, hread⟩ :=
        writeChoiceOffsets_spec off (choicePositions segs) 0 d hrange
      have hfix : fixFileSizeHeader body off segs = some out := by
        simp only [fixFileSizeHeader, hput, if_neg h12, if_pos hc]
        exact hout
      rw [hfix]
      refine ⟨by simp [hlen, hdlen], ?_, ?_⟩
      · have hcg : readUint32LE out 0 = readUint32LE d 0 := by
          refine readUint32LE_congr ?_
          intro jj hjj
          exact hpres _ (by omega)
        simp [hcg, hdread, hval]
      · intro h12' hcnt i hi
        have hps : choicePositions segs = fileTagPayloadOffsets segs := by
          refine choicePositionsAux_eq_ft segs 0 ?_
          omega
        have := hread i (by rw [hc]; exact hi)
        simp only [Nat.zero_add] at this
        rw [hps] at this
        simp [this]
    · have hfix : fixFileSizeHeader body off segs = some d := by
        simp only [fixFileSizeHeader, hput, if_neg h12, if_neg hc]
      rw [hfix]
      refine ⟨by simpa using hdlen, by simp [hdread, hval], ?_⟩
      intro h12' hcnt i hi
      have hcl : (choicePositions segs).length = countFileTags segs :=
        choicePositionsAux_length segs 0
      rw [hcl] at hc
      exact absurd hcnt hc

set_option maxRecDepth 40000 in
/-- Witness for C2: the spec's concrete scenario — `size_offset = 48`
(one 36-byte record) and a single FileTag payload beginning at body
offset 100; the table field becomes `100 - 48 - 3` and `total_size`
becomes `150 - 48`. -/
theorem fixFileSizeHeader_correct_witness :
    sumLens
        [{ lineType := .structural, lineIndex := 0, data := List.replicate 100 1 },
         { lineType := .filetag, lineIndex := 0, data := List.replicate 50 2 }] =
      (List.replicate 150 7 : List Nat).length ∧
    (fixFileSizeHeader (List.replicate 150 7) 48
        [{ lineType := .structural, lineIndex := 0, data := List.replicate 100 1 },
         { lineType := .filetag, lineIndex := 0, data := List.replicate 50 2 }]).map
        (fun d => readUint32LE d 0) = some 102 ∧
    (fixFileSizeHeader (List.replicate 150 7) 48
        [{ lineType := .structural, lineIndex := 0, data := List.replicate 100 1 },
         { lineType := .filetag, lineIndex := 0, data := List.replicate 50 2 }]).map
        (fun d => readUint32LE d 44) =
      some (u32sub (u32sub 100 48) fileTagStart.length) := by
  refine ⟨by decide, ?_, ?_⟩
  · have h2 := (fixFileSizeHeader_correct (List.replicate 150 7) 48
      [{ lineType := .structural, lineIndex := 0, data := List.replicate 100 1 },
       { lineType := .filetag, lineIndex := 0, data := List.replicate 50 2 }]
      (by decide) (by decide) (by decide) (by decide)).2.1
    simpa using h2
  · have h3 := (fixFileSizeHeader_correct (List.replicate 150 7) 48
      [{ lineType := .structural, lineIndex := 0, data := List.replicate 100 1 },
       { lineType := .filetag, lineIndex := 0, data := List.replicate 50 2 }]
      (by decide) (by decide) (by decide) (by decide)).2.2
      (by omega) (by decide) 0 (by decide)
    have h4 : (fileTagPayloadOffsets
        [{ lineType := .structural, lineIndex := 0, data := List.replicate 100 1 },
         { lineType := .filetag, lineIndex := 0, data := List.replicate 50 2 }]).getD 0 0
        = 100 := by decide
    rw [h4] at h3
    simpa using h3

/-- C6: when `size_offset > 12` and the FileTag segment count does not
match `(size_offset - 12) / 36`, `fixFileSizeHeader` still writes the
4-byte `total_size` field at offset 0, leaves every byte from offset 4 on
unmodified, and returns normally (the run is not aborted). -/
theorem fixFileSizeHeader_mismatch (body : List Nat) (off : Nat)
    (segs : List ScnSegment) (h4 : 4 ≤ body.length) (h12 : 12 < off)
    (hmis : countFileTags segs ≠ (off - 12) / 36) :
    ((fixFileSizeHeader body off segs).map List.length = some body.length) ∧
    ((fixFileSizeHeader body off segs).map (fun d => readUint32LE d 0) =
      some (u32 (u32sub body.length off))) ∧
    (∀ i, 4 ≤ i → (fixFileSizeHeader body off segs).map (fun d => d[i]?) =
      some (body[i]?)) := by
  have h04 : 0 + 4 ≤ body.length := by omega
  have hput := @putUint32LE_some body 0 (u32sub body.length off) h04
  have hdlen := @putUint32LE_length body 0 (u32sub body.length off) h04
  have hdread := @putUint32LE_read body 0 (u32sub body.length off) h04
  set d := body.take 0 ++ le4 (u32sub body.length off) ++ body.drop (0 + 4) with hd
  have hcl : (choicePositions segs).length = countFileTags segs :=
    choicePositionsAux_length segs 0
  have hc : ¬ (choicePositions segs).length = (off - 12) / 36 := by
    rw [hcl]
    exact hmis
  have hfix : fixFileSizeHeader body off segs = some d := by
    simp only [fixFileSizeHeader, hput, if_neg (by omega : ¬ off ≤ 12), if_neg hc]
  rw [hfix]
  refine ⟨by simpa using hdlen, by simp [hdread], ?_⟩
  intro i hi
  have := @putUint32LE_getElem_ge body 0 (u32sub body.length off) i h04 (by omega)
  simp [this]

set_option maxRecDepth 40000 in
/-- Witness for C6: header demands one table record but the segment list
holds no FileTag segment; bytes from offset 4 on are untouched. -/
theorem fixFileSizeHeader_mismatch_witness :
    (4 : Nat) ≤ (List.replicate 50 9 : List Nat).length ∧ (12 : Nat) < 48 ∧
    countFileTags ([] : List ScnSegment) ≠ (48 - 12) / 36 ∧
    (fixFileSizeHeader (List.replicate 50 9) 48 []).map List.length =
      some (List.replicate 50 9 : List Nat).length ∧
    (fixFileSizeHeader (List.replicate 50 9) 48 []).map (fun d => d[10]?) =
      some ((List.replicate 50 9 : List Nat)[10]?) :=
  ⟨by decide, by decide, by decide,
   (fixFileSizeHeader_mismatch (List.replicate 50 9) 48 [] (by decide) (by decide)
     (by decide)).1,
   (fixFileSizeHeader_mismatch (List.replicate 50 9) 48 [] (by decide) (by decide)
     (by decide)).2.2 10 (by decide)⟩

/-- C3: the Strict-Size Policy applies exactly to base names `2_6_6.scn`
and `4_12_1.scn`; under it a longer replacement is rejected (original
payload kept) and a shorter one is right-padded with space bytes (0x20)
to exactly the original payload length. -/
theorem strictSize_policy :
    (∀ base : String,
      strictSizeMode base = true ↔ (base = "2_6_6.scn" ∨ base = "4_12_1.scn")) ∧
    (∀ orig eng : List Nat,
      (orig.length < eng.length → strictSubst orig eng = orig) ∧
      (eng.length ≤ orig.length →
        strictSubst orig eng = eng ++ List.replicate (orig.length - eng.length) 32 ∧
        (strictSubst orig eng).length = orig.length)) := by
  constructor
  · intro base
    constructor
    · intro h
      unfold strictSizeMode at h
      split at h
      · left; rfl
      · right; rfl
      · cases h
    · rintro (rfl | rfl) <;> rfl
  · intro orig eng
    constructor
    · intro hlt
      unfold strictSubst
      rw [if_pos (by omega)]
    · intro hle
      unfold strictSubst
      rw [if_neg (by omega)]
      by_cases heq : eng.length < orig.length
      · rw [if_pos heq]
        refine ⟨rfl, ?_⟩
        simp
        omega
      · rw [if_neg heq]
        have : orig.length - eng.length = 0 := by omega
        rw [this]
        simp
        omega

/-- Witness for C3: a 10-byte slot; a 6-byte replacement is padded with
four spaces, a 12-byte replacement is rejected. -/
theorem strictSize_policy_witness :
    strictSizeMode "2_6_6.scn" = true ∧
    (List.replicate 6 66 : List Nat).length ≤ (List.replicate 10 65 : List Nat).length ∧
    strictSubst (List.replicate 10 65) (List.replicate 6 66) =
      List.replicate 6 66 ++ List.replicate 4 32 ∧
    (List.replicate 10 65 : List Nat).length < (List.replicate 12 67 : List Nat).length ∧
    strictSubst (List.replicate 10 65) (List.replicate 12 67) = List.replicate 10 65 :=
  ⟨(strictSize_policy.1 "2_6_6.scn").mpr (Or.inl rfl),
   by decide,
   by simpa using
     ((strictSize_policy.2 (List.replicate 10 65) (List.replicate 6 66)).2 (by decide)).1,
   by decide,
   (strictSize_policy.2 (List.replicate 10 65) (List.replicate 12 67)).1 (by decide)⟩

/-- Counterexample to C7's shortness clause: `parseJIS` has no
implausibly-short heuristic — when the decoder succeeds with a 1-byte
string on a 100-byte input (implausibly short by any measure), the
decoded string is returned unchanged, not the empty string. -/
theorem parseJIS_claim_cex :
    (fun _ : List Nat => (Except.ok "a" : Except Unit String)) (List.replicate 100 0) =
      Except.ok "a" ∧
    "a".length * 2 < (List.replicate 100 (0 : Nat)).length ∧
    parseJIS (fun _ => Except.ok "a") (List.replicate 100 0) ≠ "" :=
  ⟨rfl, by decide, by decide⟩

/-- C7 (amended): `parseJIS` never raises; it returns the empty string
exactly when transcoding fails, and otherwise returns the decoded string
unchanged, whatever its length. -/
theorem parseJIS_soft_fail (decode : List Nat → Except Unit String) (data : List Nat) :
    parseJIS decode data = ((decode data).toOption.getD "") ∧
    (∀ e, decode data = .error e → parseJIS decode data = "") ∧
    (∀ s, decode data = .ok s → parseJIS decode data = s) := by
  rcases h : decode data with e | s
  · refine ⟨?_, ?_, ?_⟩ <;> simp [parseJIS, h, Except.toOption]
  · refine ⟨?_, ?_, ?_⟩ <;> simp [parseJIS, h, Except.toOption]

/-- Witness for C7's amended statement at concrete decoders. -/
theorem parseJIS_soft_fail_witness :
    parseJIS (fun _ => Except.error ()) [1, 2] = "" ∧
    parseJIS (fun _ => Except.ok "xy") [1, 2] = "xy" :=
  ⟨(parseJIS_soft_fail (fun _ => Except.error ()) [1, 2]).2.1 () rfl,
   (parseJIS_soft_fail (fun _ => Except.ok "xy") [1, 2]).2.2 "xy" rfl⟩

/-- Counterexample to C9: removal can splice the surviving bytes into a
new bubble pattern that the single left-to-right pass has already moved
past, so a second application removes more.  Here the first application
leaves exactly one `reBubble2` image, and the second deletes it. -/
theorem removeBubbles_not_idempotent :
    removeBubbles (removeBubbles
        [0xf0, 0x46, 0xf2, 0x07, 0xf0, 0x46, 0xf2, 0x07, 0, 0, 0, 0, 0, 0]) ≠
      removeBubbles [0xf0, 0x46, 0xf2, 0x07, 0xf0, 0x46, 0xf2, 0x07, 0, 0, 0, 0, 0, 0] := by
  decide

/-- A single pattern pass is the identity on a buffer with no match. -/
lemma replaceAllPatFuel_no_match {pat : List (Option Nat)} :
    ∀ (fuel : Nat) (l : List Nat), l.length < fuel →
      hasPatMatch pat l = false → replaceAllPatFuel fuel pat l = l := by
  intro fuel
  induction fuel with
  | zero => intro l hl hm; omega
  | succ n ih =>
    intro l hl hm
    cases l with
    | nil => rfl
    | cons b rest =>
      simp only [hasPatMatch, Bool.or_eq_false_iff] at hm
      rw [replaceAllPatFuel, if_neg (by rw [hm.1]; exact Bool.false_ne_true)]
      rw [ih rest (by simpa using hl) hm.2]

/-- Identity at canonical fuel. -/
lemma replaceAllPat_no_match {pat : List (Option Nat)} {l : List Nat}
    (hm : hasPatMatch pat l = false) : replaceAllPat pat l = l :=
  replaceAllPatFuel_no_match (l.length + 1) l (by omega) hm

/-- C9 (amended): bubble removal is a no-op on an already-cleaned buffer
(one containing none of the three bubble patterns); applying it twice to
such a buffer changes nothing.  It is not idempotent on arbitrary
buffers (`removeBubbles_not_idempotent`), because deleting a span can
join surrounding bytes into a fresh pattern behind the scan point. -/
theorem removeBubbles_clean_noop (b : List Nat)
    (h0 : hasPatMatch bubblePat0 b = false)
    (h1 : hasPatMatch bubblePat1 b = false)
    (h2 : hasPatMatch bubblePat2 b = false) :
    removeBubbles b = b := by
  unfold removeBubbles
  rw [replaceAllPat_no_match h0, replaceAllPat_no_match h1, replaceAllPat_no_match h2]

/-- Witness for C9's amended statement on a clean buffer. -/
theorem removeBubbles_clean_noop_witness :
    hasPatMatch bubblePat0 [1, 2, 3] = false ∧
    hasPatMatch bubblePat1 [1, 2, 3] = false ∧
    hasPatMatch bubblePat2 [1, 2, 3] = false ∧
    removeBubbles [1, 2, 3] = [1, 2, 3] :=
  ⟨by decide, by decide, by decide,
   removeBubbles_clean_noop [1, 2, 3] (by decide) (by decide) (by decide)⟩

/-- Counterexample to C8 as stated: the voice-cue regex in the source
requires an extra double quote after the quoted span, so the plain
directive backslash-V-quoted-span in `\V"a"` (bytes 92 86 34 97 34) is
not stripped: the code measures 5, the claimed description measures 0. -/
theorem lineLength_claim_cex :
    lineLength [92, 86, 34, 97, 34] = 5 ∧
    specVisibleLengthClaimed [92, 86, 34, 97, 34] = 0 ∧
    lineLength [92, 86, 34, 97, 34] ≠ specVisibleLengthClaimed [92, 86, 34, 97, 34] := by
  refine ⟨by decide, by decide, by decide⟩

/-- Stripping then measuring equals counting the surviving bytes in one
pass: the voice-cue removal contributes exactly zero length for every
match of the as-implemented pattern. -/
lemma stripVoiceFuel_length :
    ∀ (fuel : Nat) (l : List Nat),
      (stripVoiceFuel fuel l).length = countVoiceFuel fuel l := by
  intro fuel
  induction fuel with
  | zero => intro l; rfl
  | succ n ih =>
    intro l
    cases l with
    | nil => rfl
    | cons b rest =>
      simp only [stripVoiceFuel, countVoiceFuel]
      by_cases h1 : b = 92 ∧ rest.take 2 = [86, 34]
      · rw [if_pos h1, if_pos h1]
        by_cases h2 : ((rest.drop 2).drop
              ((rest.drop 2).takeWhile fun x => decide (x ≠ 34)).length).take 2 =
            [34, 34]
        · rw [if_pos h2, if_pos h2]
          exact ih _
        · rw [if_neg h2, if_neg h2]
          simp [ih]
          omega
      · rw [if_neg h1, if_neg h1]
        simp [ih]
        omega

/-- C8 (amended): the visible length used by the word wrapper equals the
length of the input after removing every color directive (backslash, c,
digits) and every voice-cue directive as implemented — backslash, V, a
double-quoted span, and one additional double quote; both directive
forms contribute zero to the measured length. -/
theorem lineLength_spec (s : List Nat) :
    lineLength s = specVisibleLengthAmended s :=
  stripVoiceFuel_length ((stripColor s).length + 1) (stripColor s)
